import Mathlib

/-!
Shallow embedding of the telety CLI session coordinator
(src/src/commands/host.ts, src/src/commands/join.ts, src/src/base/command.ts,
src/src/lib/socket.ts, src/src/lib/child.ts and the Prompt class bundled in
src/unnamed/part_000).  Pure computations (string normalization, clamping,
classification) are translated directly; the event-driven parts are modelled
as explicit step functions on state records that emit lists of observable
actions, one step per JavaScript event-loop turn.
-/

namespace Telety

/- ### Regular expressions from src/lib/constants (REG) -/

/-- JavaScript `\s` character class (used by `REG.TRAILSPC = /\s+$/g` and
`REG.COMMENT = /^#\s*/`). -/
def jsWs (c : Char) : Bool :=
  c = ' ' || c = '\t' || c = '\n' || c = '\r' || c = '\x0b' || c = '\x0c' ||
  c = '\u00A0' || c = '\u1680' || ('\u2000' ≤ c && c ≤ '\u200A') ||
  c = '\u2028' || c = '\u2029' || c = '\u202F' || c = '\u205F' ||
  c = '\u3000' || c = '\uFEFF'

/-- `line.replace(REG.TRAILSPC, '')` with `TRAILSPC = /\s+$/g`: remove the
trailing whitespace run. -/
def stripTrailWs (s : String) : String :=
  ⟨(s.data.reverse.dropWhile jsWs).reverse⟩

/-- `REG.LF.test(chunk)` with `LF = /\\$/`: the chunk ends with a backslash
(the continuation marker). -/
def endsWithBs (s : String) : Bool :=
  s.data.getLast? == some '\\'

/-- `t.replace(REG.LF, '')`: remove one trailing backslash if present. -/
def stripLf (s : String) : String :=
  if endsWithBs s then ⟨s.data.dropLast⟩ else s

/-- `chunks.map(t => t.replace(REG.LF, '')).join(' ')` — the single-line
executable form of a chunk sequence (Prompt `_addHistory` / HostCommand
`processInput`). -/
def toSingle (chunks : List String) : String :=
  String.intercalate " " (chunks.map stripLf)

/-- `REG.COMMENT.test(input)` with `COMMENT = /^#\s*/` — since `\s*` matches
the empty string the test holds exactly when the input starts with `#`. -/
def isCommentInput (s : String) : Bool :=
  match s.data with
  | '#' :: _ => true
  | _ => false

/-- `input.replace(REG.COMMENT, '')`: drop the leading `#` and the whitespace
run following it. -/
def commentStrip (s : String) : String :=
  match s.data with
  | '#' :: rest => ⟨rest.dropWhile jsWs⟩
  | _ => s

/-- `CONTROLS.QUIT` (inline constants of the bundled host command revision,
src/unnamed/part_001). -/
def QUIT : List String := ["ctrl-d", "quit", "exit"]

/-- `os.EOL`, modelled as the POSIX line separator. -/
def eol : String := "\n"

/- ### Prompt line accumulation (Prompt.onLine, src/unnamed/part_000) -/

/-- One `line` event: strip trailing whitespace; a non-empty chunk is pushed;
absent a trailing continuation marker the accumulated chunks are finalized as
one submission and the pending buffer is reset. -/
def onLine (pending : List String) (line : String) :
    List String × Option (List String) :=
  let chunk := stripTrailWs line
  if chunk = "" then (pending, none)
  else
    let pending := pending ++ [chunk]
    if endsWithBs chunk then (pending, none)
    else ([], some pending)

/-- Feed a sequence of raw lines to the prompt, collecting the finalized
submissions in order. -/
def runLines (pending : List String) : List String → List String × List (List String)
  | [] => (pending, [])
  | l :: ls =>
    let st := onLine pending l
    let rest := runLines st.1 ls
    (rest.1, st.2.toList ++ rest.2)

/- ### History entries (PromptResult, src/unnamed/part_000) -/

/-- `PromptResult { id?: string; input: string }`. -/
structure PromptResult where
  id : Option String
  input : String
deriving Repr, DecidableEq

/- ### Recall navigation (Prompt.onKeypress, src/unnamed/part_000) -/

inductive RKey where
  | up
  | down
deriving Repr, DecidableEq

/-- `this._historyMarker += (key.name === 'up' ? -1 : 1)`. -/
def keyDelta : RKey → Int
  | .up => -1
  | .down => 1

/-- `Math.min(Math.max(m, 0), history.length)`. -/
def clampMarker (m : Int) (len : Nat) : Int :=
  min (max m 0) (len : Int)

/-- `history[m]` followed by `entry ? entry.input : ''` (an out-of-bounds
index yields `undefined`, rendered as the empty line). -/
def entryAt (hist : List PromptResult) (m : Int) : String :=
  if m < 0 then ""
  else ((hist.get? m.toNat).map PromptResult.input).getD ""

/-- Prompt recall state: the history marker and the line buffer redrawn by
`this.clear(); this.interface().write(line)`. -/
structure RecallState where
  marker : Int
  buffer : String
deriving Repr, DecidableEq

/-- One up/down keypress: a no-op while chunks are pending
(`if (!this._chunks.length)`), otherwise move the marker, clamp it to
`[0, history.length]` and redraw the selected entry (blank past the end). -/
def recallStep (hist : List PromptResult) (chunksPending : Nat)
    (st : RecallState) (k : RKey) : RecallState :=
  if chunksPending = 0 then
    let m := clampMarker (st.marker + keyDelta k) hist.length
    { marker := m, buffer := entryAt hist m }
  else st

/-- Fold a keypress sequence (`multiline()` starts the marker at
`this._history.length`). -/
def runRecall (hist : List PromptResult) (chunksPending : Nat)
    (st : RecallState) (ks : List RKey) : RecallState :=
  ks.foldl (recallStep hist chunksPending) st

/- ### Child process outcome (ChildPromise.resolve, src/src/lib/child.ts) -/

inductive ChildEvent where
  | error
  | close (code : Int)
  | exit (code : Int)
deriving Repr, DecidableEq

/-- `ChildPromise.resolve` settles on the first emitted event: `error`
rejects; `close`/`exit` reject when the code is truthy (non-zero) and resolve
otherwise.  `some true` = resolved (Succeeded), `some false` = rejected
(Failed), `none` = still running. -/
def childSettle : List ChildEvent → Option Bool
  | [] => none
  | .error :: _ => some false
  | .close c :: _ => some (c == 0)
  | .exit c :: _ => some (c == 0)

/- ### Host coordinator (HostCommand, src/src/commands/host.ts) -/

/-- `WebhookResponse { id, channel }`. -/
structure WebhookResp where
  id : String
  channel : String
deriving Repr, DecidableEq

/-- Observable actions emitted by one coordinator step.  `postMessage`
carries the raw (EOL-joined) input of the POST body together with the index
of the history entry captured by the `.then(res => res && (hist.id =
res.id))` closure; `postComment` carries the payload
`{ id: last.id, comment }`. -/
inductive HAction where
  | clearRl
  | rlDisconnect
  | spawnChild (cmd : String)
  | postMessage (raw : String) (histIdx : Nat)
  | postComment (id : Option String) (comment : String)
  | warn (msg : String)
  | printDisconnected
  | exitProc (code : Int)
  | killChild (code : Int)
deriving Repr, DecidableEq

/-- Host coordinator state: the session history, the active child handle
(recorded by its command string) and the `succeeded` decoration flag. -/
structure HostState where
  history : List PromptResult
  childCmd : Option String
  succeeded : Option Bool
deriving Repr, DecidableEq

/-- `HostCommand._teardown(code)`: with an active child, kill it with the
code and return (no exit); otherwise print the disconnect notice and exit
the process with the code. -/
def teardown (s : HostState) (code : Int) : HostState × List HAction :=
  match s.childCmd with
  | some _ => ({ s with childCmd := none }, [.killChild code])
  | none => (s, [.printDisconnected, .exitProc code])

/-- `HostCommand.appendComment(input)`: strip the comment prefix; warn (and
do nothing else) when history is empty, otherwise POST
`{ type: comment, payload: { id: last.id, comment } }` for the most recent
entry. -/
def appendComment (s : HostState) (input : String) : HostState × List HAction :=
  let comment := commentStrip input
  match s.history.getLast? with
  | none => (s, [.warn "Input must be submitted before a comment can be added"])
  | some last => (s, [.postComment last.id comment])

/-- `HostCommand.processInput(text)`: empty input clears the line; a quit
token tears down; a comment input is routed to `appendComment`; anything
else disconnects the readline, spawns the child, pushes the new history
entry and fires the message webhook (whose acknowledgement is handled later
by `applyAck`). -/
def processInput (s : HostState) (text : List String) : HostState × List HAction :=
  if text.isEmpty then (s, [.clearRl])
  else
    let raw := String.intercalate eol text
    let input := toSingle text
    if input ∈ QUIT then teardown s 0
    else if isCommentInput input then appendComment s input
    else
      let hist : PromptResult := { id := none, input := input }
      ({ s with childCmd := some input, history := s.history ++ [hist] },
       [.rlDisconnect, .spawnChild input, .postMessage raw s.history.length])

/-- Completion of the awaited `ChildPromise`: set `succeeded` and clear the
child handle; nothing else changes and no action is emitted. -/
def childDone (s : HostState) (ok : Bool) : HostState :=
  { s with succeeded := some ok, childCmd := none }

/-- `hist.id = res.id` for the entry at position `idx` (the object captured
by the webhook continuation); all other entries are untouched. -/
def assignId : List PromptResult → Nat → String → List PromptResult
  | [], _, _ => []
  | e :: t, 0, mid => { e with id := some mid } :: t
  | e :: t, n + 1, mid => e :: assignId t n mid

/-- Resolution of the message webhook POST:
`callWebhook(...).then(res => res && (hist.id = res.id))` with
`callWebhook = http.request(...).then(r => r.data).catch(e => this.warn(e))`.
Success assigns the returned id onto the captured entry; failure is warned
and leaves every entry untouched. -/
def applyAck (s : HostState) (idx : Nat) (res : Except String WebhookResp) :
    HostState × List HAction :=
  match res with
  | .ok r => ({ s with history := assignId s.history idx r.id }, [])
  | .error e => (s, [.warn e])

/-- `HostCommand.rlPrompt()`: prompt text, an optional ✔/✘ decoration taken
from `succeeded`, and the `$> ` suffix, joined by a single space (color
wrappers elided). -/
def rlPrompt (txt : String) (succeeded : Option Bool) : String :=
  String.intercalate " "
    ([txt] ++ (match succeeded with
               | none => []
               | some true => ["✔"]
               | some false => ["✘"]) ++ ["$> "])

/- ### Channel client liveness (heartbeat / SocketClient.connect,
src/src/lib/socket.ts) -/

/-- `3e4` — the server ping interval baked into the heartbeat timeout. -/
def heartbeatInterval : Nat := 30000

/-- `2e3` — the grace added on top of the ping interval. -/
def heartbeatGrace : Nat := 2000

/-- Liveness state of one connection: the absolute time at which the pending
`ptimeout` timer fires `this.terminate()`, or `none` when no timer is
armed. -/
structure SockState where
  deadline : Option Nat
deriving Repr, DecidableEq

/-- Events observable on the underlying `ws` connection. -/
inductive SockEvent where
  | wsOpen
  | wsPing
  | wsMessage (raw : String)
  | wsClose
deriving Repr, DecidableEq

/-- Wiring of `SocketClient.connect`: `heartbeat` (clear the timer and re-arm
it `heartbeatInterval + heartbeatGrace` ahead) is attached to `open` and
`ping` only; a `message` event is dispatched to the subscribed listeners and
does not touch the timer; `close` clears the timer (and schedules the
reconnect). -/
def sockEvent (now : Nat) (s : SockState) : SockEvent → SockState
  | .wsOpen => { deadline := some (now + heartbeatInterval + heartbeatGrace) }
  | .wsPing => { deadline := some (now + heartbeatInterval + heartbeatGrace) }
  | .wsMessage _ => s
  | .wsClose => { deadline := none }

/-- The armed `setTimeout` forcibly terminates the connection exactly when
its deadline has been reached without being cleared or re-armed. -/
def sockExpired (now : Nat) (s : SockState) : Bool :=
  match s.deadline with
  | some d => d ≤ now
  | none => false

/- ### Join coordinator (JoinCommand.receiver / TeletyCommand._deferredExec,
src/src/commands/join.ts and src/src/base/command.ts) -/

/-- Join coordinator state: whether a local child handle is active
(`this.child`), the `succeeded` outcome flag, and the inbound `message`
events whose receiver continuations are parked on `_deferredExec()` awaiting
the child. -/
structure JoinState where
  childActive : Bool
  succeeded : Option Bool
  pending : List String
deriving Repr, DecidableEq

/-- Events driving the join coordinator: a local input spawning a child, the
child completing (exit code), and an inbound remote `message` event carrying
a message id. -/
inductive JEvent where
  | localSpawn (cmd : String)
  | childExit (code : Int)
  | remoteMsg (id : String)
deriving Repr, DecidableEq

/-- Observable join-mode actions. -/
inductive JAction where
  | spawnChild (cmd : String)
  | setOutcome (ok : Bool)
  | fetchMessage (id : String)
  | addRecall (id : String)
  | render (id : String)
  | promptResume (id : String)
deriving Repr, DecidableEq

/-- Surfacing one remote message to the prompt, in the order of
`JoinCommand.receiver`: `getMessage`, `prompt().addHistory`, `printMessage`,
`prompt().interface().prompt()`. -/
def surface (id : String) : List JAction :=
  [.fetchMessage id, .addRecall id, .render id, .promptResume id]

/-- One event-loop turn of the join coordinator.

* `localSpawn`: `TeletyCommand.spawn` — the child handle becomes active.
* `childExit`: the child's `close`/`exit` fires.  The promise created by
  `spawn` registered its listeners first, so its continuation
  (`succeeded := code == 0`, `child := null`) runs before the receiver
  continuations parked on `_deferredExec()`; those then resume in arrival
  order and surface their messages.  Hence the emitted actions set the
  outcome first and only then surface the deferred events.
* `remoteMsg`: `receiver` first awaits `_deferredExec()` — with an active
  child the continuation is parked (no action yet); with no child the await
  is `await null`, a no-op, and the event is surfaced in the same turn. -/
def joinStep (s : JoinState) : JEvent → JoinState × List JAction
  | .localSpawn cmd =>
    ({ s with childActive := true }, [.spawnChild cmd])
  | .childExit code =>
    ({ childActive := false, succeeded := some (code == 0), pending := [] },
     .setOutcome (code == 0) :: s.pending.flatMap surface)
  | .remoteMsg id =>
    if s.childActive then ({ s with pending := s.pending ++ [id] }, [])
    else (s, surface id)

/- ### Shared prompt history across instances (Prompt.history /
Prompt._history / Prompt._addHistory, src/unnamed/part_000) -/

/-- One constructed `Prompt` instance: `snap` is the spread copy
`[...Prompt.history]` taken at construction, `hist` is `this._history`,
`own` records the entries this instance itself appended, and `excl` is the
`historyExclusions` matcher. -/
structure PromptInst where
  snap : List PromptResult
  hist : List PromptResult
  own : List PromptResult
  excl : String → Bool

/-- The process-wide world: the static `Prompt.history` list and the
instances constructed so far. -/
structure PWorld where
  globalHist : List PromptResult
  prompts : List PromptInst

/-- `Prompt._addHistory(chunks)`: empty chunk lists add nothing; an input
matching an exclusion adds nothing; otherwise one entry is pushed onto both
`this._history` and the shared `Prompt.history`. -/
def addHistory (p : PromptInst) (g : List PromptResult) (chunks : List String) :
    PromptInst × List PromptResult :=
  if chunks.isEmpty then (p, g)
  else
    let input := toSingle chunks
    if p.excl input then (p, g)
    else
      let e : PromptResult := { id := none, input := input }
      ({ p with hist := p.hist ++ [e], own := p.own ++ [e] }, g ++ [e])

/-- World operations: constructing a new prompt instance, or finalizing a
submission through the instance at position `i`. -/
inductive POp where
  | construct (excl : String → Bool)
  | submit (i : Nat) (chunks : List String)

/-- One world step.  Construction snapshots the shared list
(`_history = [...Prompt.history]`); a submission updates the owning instance
and the shared list, leaving every other instance untouched. -/
def pStep (w : PWorld) : POp → PWorld
  | .construct f =>
    { w with prompts := w.prompts ++
        [{ snap := w.globalHist, hist := w.globalHist, own := [], excl := f }] }
  | .submit i chunks =>
    match w.prompts.get? i with
    | none => w
    | some p =>
      let r := addHistory p w.globalHist chunks
      { globalHist := r.2, prompts := w.prompts.set i r.1 }

/-- Run a sequence of world operations. -/
def runP (w : PWorld) (ops : List POp) : PWorld :=
  ops.foldl pStep w

/-- A join-mode action is the `setOutcome` bookkeeping step. -/
def JAction.isSetOutcome : JAction → Bool
  | .setOutcome _ => true
  | _ => false

/-- A join-mode action is the first surfacing step (the message fetch). -/
def JAction.isFetchMessage : JAction → Bool
  | .fetchMessage _ => true
  | _ => false

/-- Trace of join-coordinator actions over an event sequence. -/
def runJoin (s : JoinState) : List JEvent → List JAction
  | [] => []
  | e :: es => (joinStep s e).2 ++ runJoin (joinStep s e).1 es

/- ### Helper lemmas -/

theorem clampMarker_nonneg (m : Int) (len : Nat) : 0 ≤ clampMarker m len :=
  le_min (le_max_right m 0) (Int.natCast_nonneg len)

theorem clampMarker_le (m : Int) (len : Nat) : clampMarker m len ≤ (len : Int) :=
  min_le_right _ _

theorem runLines_cons (pending : List String) (l : String) (ls : List String) :
    runLines pending (l :: ls) =
      ((runLines (onLine pending l).1 ls).1,
       (onLine pending l).2.toList ++ (runLines (onLine pending l).1 ls).2) := rfl

theorem runLines_continuation :
    ∀ (lines : List String) (pending : List String), lines ≠ [] →
    (∀ l ∈ lines, stripTrailWs l ≠ "") →
    (∀ l ∈ lines.dropLast, endsWithBs (stripTrailWs l) = true) →
    (∀ l, lines.getLast? = some l → endsWithBs (stripTrailWs l) = false) →
    runLines pending lines = ([], [pending ++ lines.map stripTrailWs])
  | [], _, hne, _, _, _ => absurd rfl hne
  | [l], pending, _, hne, _, hlast => by
    have h1 : stripTrailWs l ≠ "" := hne l (by simp)
    have h2 : endsWithBs (stripTrailWs l) = false := hlast l (by simp)
    have hon : onLine pending l = ([], some (pending ++ [stripTrailWs l])) := by
      simp [onLine, h1, h2]
    rw [runLines_cons, hon]
    simp [runLines]
  | l₁ :: l₂ :: ls, pending, _, hne, hmid, hlast => by
    have h1 : stripTrailWs l₁ ≠ "" := hne l₁ (by simp)
    have h2 : endsWithBs (stripTrailWs l₁) = true := by
      apply hmid l₁
      simp [List.dropLast_cons_of_ne_nil]
    have ih := runLines_continuation (l₂ :: ls) (pending ++ [stripTrailWs l₁])
      (by simp) (fun l hl => hne l (List.mem_cons_of_mem _ hl))
      (fun l hl => hmid l (by
        rw [List.dropLast_cons_of_ne_nil (by simp)]
        exact List.mem_cons_of_mem _ hl))
      (fun l hl => hlast l (by simpa using hl))
    have hon : onLine pending l₁ = (pending ++ [stripTrailWs l₁], none) := by
      simp [onLine, h1, h2]
    rw [runLines_cons, hon]
    simp [ih]

theorem quit_not_comment {input : String} (hc : isCommentInput input = true) :
    input ∉ QUIT := by
  intro hmem
  simp [QUIT] at hmem
  rcases hmem with h | h | h <;> (subst h; exact absurd hc (by decide))

theorem processInput_comment (s : HostState) (text : List String)
    (hne : text.isEmpty = false) (hc : isCommentInput (toSingle text) = true) :
    processInput s text = appendComment s (toSingle text) := by
  have hq : toSingle text ∉ QUIT := quit_not_comment hc
  simp [processInput, hne, hq, hc]

theorem assignId_get?_eq :
    ∀ (h : List PromptResult) (idx : Nat) (mid : String) (e : PromptResult),
    h.get? idx = some e →
    (assignId h idx mid).get? idx = some { e with id := some mid }
  | [], _, _, _, hg => by simp at hg
  | e :: t, 0, mid, e', hg => by
    simp at hg
    simp [assignId, hg]
  | e :: t, n + 1, mid, e', hg => by
    simpa [assignId] using assignId_get?_eq t n mid e' (by simpa using hg)

theorem assignId_get?_ne :
    ∀ (h : List PromptResult) (idx : Nat) (mid : String) (j : Nat), j ≠ idx →
    (assignId h idx mid).get? j = h.get? j
  | [], _, _, _, _ => by simp [assignId]
  | e :: t, 0, mid, 0, hne => absurd rfl hne
  | e :: t, 0, mid, j + 1, _ => by simp [assignId]
  | e :: t, n + 1, mid, 0, _ => by simp [assignId]
  | e :: t, n + 1, mid, j + 1, hne => by
    simpa [assignId] using assignId_get?_ne t n mid j (fun hj => hne (by simp [hj]))

theorem runJoin_no_fetch_before_outcome :
    ∀ (evs : List JEvent) (s : JoinState), s.childActive = true →
    ((runJoin s evs).takeWhile (fun a => !a.isSetOutcome)).all
      (fun a => !a.isFetchMessage) = true
  | [], _, _ => rfl
  | e :: es, s, h => by
    cases e with
    | localSpawn cmd =>
      have ih := runJoin_no_fetch_before_outcome es { s with childActive := true } rfl
      simpa [runJoin, joinStep, JAction.isSetOutcome, JAction.isFetchMessage] using ih
    | childExit code =>
      simp [runJoin, joinStep, JAction.isSetOutcome]
    | remoteMsg id =>
      have ih := runJoin_no_fetch_before_outcome es
        { s with pending := s.pending ++ [id] } (by simpa using h)
      simpa [runJoin, joinStep, h] using ih

theorem recall_invariant (ks : List RKey) (hist : List PromptResult) (st : RecallState)
    (h0 : 0 ≤ st.marker) (h1 : st.marker ≤ (hist.length : Int)) :
    0 ≤ (runRecall hist 0 st ks).marker ∧
      (runRecall hist 0 st ks).marker ≤ (hist.length : Int) := by
  induction ks generalizing st with
  | nil => exact ⟨h0, h1⟩
  | cons k ks ih =>
    have hr : runRecall hist 0 st (k :: ks) =
        runRecall hist 0 (recallStep hist 0 st k) ks := rfl
    rw [hr]
    exact ih _
      (by simpa [recallStep] using clampMarker_nonneg (st.marker + keyDelta k) hist.length)
      (by simpa [recallStep] using clampMarker_le (st.marker + keyDelta k) hist.length)

theorem pStep_hist_inv (w : PWorld) (op : POp)
    (hw : ∀ p ∈ w.prompts, p.hist = p.snap ++ p.own) :
    ∀ p ∈ (pStep w op).prompts, p.hist = p.snap ++ p.own := by
  cases op with
  | construct f =>
    intro p hp
    simp only [pStep, List.mem_append, List.mem_singleton] at hp
    rcases hp with hp | hp
    · exact hw p hp
    · subst hp; simp
  | submit i chunks =>
    intro p hp
    simp only [pStep] at hp
    cases hgi : w.prompts.get? i with
    | none => rw [hgi] at hp; exact hw p hp
    | some q =>
      rw [hgi] at hp
      rcases List.mem_or_eq_of_mem_set hp with hmem | heq
      · exact hw p hmem
      · subst heq
        have hq := hw q (List.get?_mem hgi)
        by_cases hemp : chunks.isEmpty <;>
          by_cases hex : q.excl (toSingle chunks) <;>
            simp [addHistory, hemp, hex, hq]

theorem runP_hist_inv (ops : List POp) (w : PWorld)
    (hw : ∀ p ∈ w.prompts, p.hist = p.snap ++ p.own) :
    ∀ p ∈ (runP w ops).prompts, p.hist = p.snap ++ p.own := by
  induction ops generalizing w with
  | nil => exact hw
  | cons op ops ih => exact ih (pStep w op) (pStep_hist_inv w op hw)

/- ### Claim theorems -/

/-- Claim C3, counterexample: the lines `["foo \", "bar"]` finalize exactly one
submission, but its single-line form is `"foo  bar"` (the space preceding the
removed continuation marker survives), not `"foo bar"` as claimed. -/
theorem continuation_scenario_double_space :
    runLines [] ["foo \\", "bar"] = ([], [["foo \\", "bar"]]) ∧
    toSingle ["foo \\", "bar"] = "foo  bar" ∧
    toSingle ["foo \\", "bar"] ≠ "foo bar" :=
  ⟨rfl, rfl, by decide⟩

/-- Claim C3 (amended): for every sequence of raw lines whose chunks are
non-empty after trailing-whitespace stripping, where every line except the
last carries a trailing continuation marker and the last does not, the prompt
finalizes exactly one submission — the per-line whitespace-stripped chunks —
and its single-line form is the marker-stripped chunks joined by a single
space (the whitespace preceding a removed marker is preserved, so
`["foo \", "bar"]` yields `"foo  bar"`). -/
theorem prompt_single_submission (lines : List String)
    (hne : lines ≠ [])
    (hch : ∀ l ∈ lines, stripTrailWs l ≠ "")
    (hmid : ∀ l ∈ lines.dropLast, endsWithBs (stripTrailWs l) = true)
    (hlast : ∀ l, lines.getLast? = some l → endsWithBs (stripTrailWs l) = false) :
    runLines [] lines = ([], [lines.map stripTrailWs]) ∧
    toSingle (lines.map stripTrailWs) =
      String.intercalate " " (lines.map (fun l => stripLf (stripTrailWs l))) := by
  refine ⟨by simpa using runLines_continuation lines [] hne hch hmid hlast, ?_⟩
  simp [toSingle, List.map_map, Function.comp_def]

/-- Witness for `prompt_single_submission` at the claim scenario lines. -/
theorem prompt_single_submission_witness :
    runLines [] ["foo \\", "bar"] = ([], [["foo \\", "bar"]]) ∧
    toSingle ["foo \\", "bar"] = "foo  bar" := by
  have h := prompt_single_submission ["foo \\", "bar"] (by simp)
    (by decide)
    (by decide)
    (by
      intro l hl
      have hb : l = "bar" := by simpa using hl.symm
      subst hb
      decide)
  exact ⟨by simpa using h.1, by decide⟩

/-- Claim C6: teardown with an active child kills the child with the exit
code and returns without exiting; with no child it prints the disconnect
notice and exits with the code (no kill); in particular a quit token with no
running child tears down with code 0. -/
theorem teardown_child_kill_or_exit (s : HostState) (c : Int) :
    (∀ cmd, s.childCmd = some cmd →
      teardown s c = ({ s with childCmd := none }, [.killChild c])) ∧
    (s.childCmd = none →
      teardown s c = (s, [.printDisconnected, .exitProc c])) ∧
    (s.childCmd = none →
      processInput s ["exit"] = (s, [.printDisconnected, .exitProc 0])) := by
  refine ⟨?_, ?_, ?_⟩
  · intro cmd h
    simp [teardown, h]
  · intro h
    simp [teardown, h]
  · intro h
    simp +decide [processInput, QUIT, teardown, h]

/-- Witness for `teardown_child_kill_or_exit`. -/
theorem teardown_child_kill_or_exit_witness :
    teardown { history := [], childCmd := some "sleep 1", succeeded := none } 3 =
      ({ history := [], childCmd := none, succeeded := none }, [.killChild 3]) ∧
    teardown { history := [], childCmd := none, succeeded := none } 0 =
      ({ history := [], childCmd := none, succeeded := none },
       [.printDisconnected, .exitProc 0]) ∧
    processInput { history := [], childCmd := none, succeeded := none } ["exit"] =
      ({ history := [], childCmd := none, succeeded := none },
       [.printDisconnected, .exitProc 0]) :=
  ⟨(teardown_child_kill_or_exit _ 3).1 "sleep 1" rfl,
   (teardown_child_kill_or_exit _ 0).2.1 rfl,
   (teardown_child_kill_or_exit _ 0).2.2 rfl⟩

/-- Claim C2, counterexample: an application message does not reset the
liveness timer.  After `open` at time 0 the deadline is 32000; a `message`
at time 1000 leaves it at 32000, and the timer still fires at 32000 even
though an inbound signal arrived within `heartbeatInterval + grace` of it. -/
theorem message_event_no_heartbeat_reset :
    (sockEvent 1000 (sockEvent 0 { deadline := none } .wsOpen)
        (.wsMessage "hello")).deadline = some 32000 ∧
    sockExpired 32000
        (sockEvent 1000 (sockEvent 0 { deadline := none } .wsOpen)
          (.wsMessage "hello")) = true ∧
    32000 < 1000 + heartbeatInterval + heartbeatGrace := by
  refine ⟨rfl, rfl, by norm_num [heartbeatInterval, heartbeatGrace]⟩

/-- Claim C2 (amended): only connection `open` and protocol `ping` events
reset the single liveness timer, to `heartbeatInterval + grace` ahead; an
application message leaves the deadline untouched; `close` clears it; and
the armed timer forcibly terminates the connection exactly when its deadline
has passed. -/
theorem heartbeat_reset_open_ping_only (now t : Nat) (s : SockState) (m : String) :
    sockEvent now s .wsOpen =
      { deadline := some (now + heartbeatInterval + heartbeatGrace) } ∧
    sockEvent now s .wsPing =
      { deadline := some (now + heartbeatInterval + heartbeatGrace) } ∧
    sockEvent now s (.wsMessage m) = s ∧
    sockEvent now s .wsClose = { deadline := none } ∧
    (sockExpired t s = true ↔ ∃ d, s.deadline = some d ∧ d ≤ t) := by
  refine ⟨rfl, rfl, rfl, rfl, ?_⟩
  cases s with
  | mk dl => cases dl <;> simp [sockExpired]

/-- Witness for `heartbeat_reset_open_ping_only` at a concrete tick. -/
theorem heartbeat_reset_open_ping_only_witness :
    sockEvent 0 { deadline := some 5 } .wsPing = { deadline := some 32000 } ∧
    sockEvent 0 { deadline := some 5 } (.wsMessage "x") = { deadline := some 5 } ∧
    (sockExpired 32000 { deadline := some 32000 } = true ↔
      ∃ d, (some 32000 : Option Nat) = some d ∧ d ≤ 32000) := by
  have h := heartbeat_reset_open_ping_only 0 32000 { deadline := some 32000 } "x"
  have h5 := heartbeat_reset_open_ping_only 0 32000 { deadline := some 5 } "x"
  exact ⟨by simpa using h5.2.1, h5.2.2.1, h.2.2.2.2⟩

/-- Claim C5: the child outcome settles on the first process event — Failed
exactly on `error` or a non-zero `close`/`exit` code, Succeeded on code zero;
a completed child only sets the `succeeded` decoration flag (rendered in the
prompt string) and clears the handle, and the next input is processed
identically whatever the outcome was. -/
theorem child_outcome_contract :
    (∀ evs : List ChildEvent,
      (childSettle evs = some false ↔
        evs.head? = some .error ∨
          ∃ c, ¬c = 0 ∧
            (evs.head? = some (.close c) ∨ evs.head? = some (.exit c))) ∧
      (childSettle evs = some true ↔
        evs.head? = some (.close 0) ∨ evs.head? = some (.exit 0))) ∧
    (∀ s ok, childDone s ok = { s with succeeded := some ok, childCmd := none }) ∧
    (∀ s ok text,
      processInput { s with succeeded := some ok } text =
        ({ (processInput s text).1 with succeeded := some ok },
         (processInput s text).2)) ∧
    rlPrompt "telety" (some false) ≠ rlPrompt "telety" none := by
  refine ⟨?_, fun s ok => rfl, ?_, by decide⟩
  · intro evs
    constructor
    · cases evs with
      | nil => simp [childSettle]
      | cons e t =>
        cases e with
        | error => simp [childSettle]
        | close c => by_cases hc : c = 0 <;> simp [childSettle, hc]
        | exit c => by_cases hc : c = 0 <;> simp [childSettle, hc]
    · cases evs with
      | nil => simp [childSettle]
      | cons e t =>
        cases e with
        | error => simp [childSettle]
        | close c => by_cases hc : c = 0 <;> simp [childSettle, hc]
        | exit c => by_cases hc : c = 0 <;> simp [childSettle, hc]
  · intro s ok text
    cases s with
    | mk h cc sc =>
      by_cases hne : text.isEmpty
      · simp [processInput, hne]
      · simp only [processInput, hne, if_false, Bool.false_eq_true]
        split_ifs with hq hcm
        · cases cc <;> rfl
        · unfold appendComment
          cases hgl : h.getLast? <;> rfl
        · rfl

/-- Witness for `child_outcome_contract` at concrete event lists and a
concrete next input. -/
theorem child_outcome_contract_witness :
    (childSettle [.exit 1] = some false ↔
      ([ChildEvent.exit 1].head? = some .error ∨
        ∃ c, ¬c = 0 ∧
          ([ChildEvent.exit 1].head? = some (.close c) ∨
            [ChildEvent.exit 1].head? = some (.exit c)))) ∧
    childDone ⟨[], some "x", none⟩ false =
      ({ (⟨[], some "x", none⟩ : HostState) with
          succeeded := some false, childCmd := none }) ∧
    processInput ⟨[], none, some false⟩ ["# a"] =
      ({ (processInput ⟨[], none, none⟩ ["# a"]).1 with succeeded := some false },
       (processInput ⟨[], none, none⟩ ["# a"]).2) := by
  refine ⟨(child_outcome_contract.1 [.exit 1]).1, child_outcome_contract.2.1 _ false, ?_⟩
  have h := child_outcome_contract.2.2.1 ⟨[], none, none⟩ false ["# a"]
  simpa using h

/-- Claim C1: an inbound remote message while a local child is active is not
surfaced — its receiver parks on the deferred child promise and the step
emits nothing; on child completion the outcome is set first and only then are
the parked events surfaced in arrival order; with no child in flight the
deferred await is a no-op and the message is surfaced in the same step; and
from any state with an active child, no surfacing (message fetch) appears in
the action trace before an outcome is set. -/
theorem join_defers_remote_until_outcome (s : JoinState) (m : String) (c : Int) :
    (s.childActive = true →
      joinStep s (.remoteMsg m) = ({ s with pending := s.pending ++ [m] }, [])) ∧
    (s.childActive = false →
      joinStep s (.remoteMsg m) = (s, surface m)) ∧
    (joinStep s (.childExit c) =
      ({ childActive := false, succeeded := some (c == 0), pending := [] },
       .setOutcome (c == 0) :: s.pending.flatMap surface)) ∧
    (s.childActive = true → ∀ evs,
      ((runJoin s evs).takeWhile (fun a => !a.isSetOutcome)).all
        (fun a => !a.isFetchMessage) = true) :=
  ⟨fun h => by simp [joinStep, h],
   fun h => by simp [joinStep, h],
   rfl,
   fun h evs => runJoin_no_fetch_before_outcome evs s h⟩

/-- Witness for `join_defers_remote_until_outcome`: a message arriving while
a child runs is queued with no output; with no child it is surfaced at once;
child exit emits the outcome before the queued surfacing. -/
theorem join_defers_remote_until_outcome_witness :
    joinStep { childActive := true, succeeded := none, pending := [] }
        (.remoteMsg "m1") =
      ({ childActive := true, succeeded := none, pending := ["m1"] }, []) ∧
    joinStep { childActive := false, succeeded := none, pending := [] }
        (.remoteMsg "m1") =
      ({ childActive := false, succeeded := none, pending := [] }, surface "m1") ∧
    joinStep { childActive := true, succeeded := none, pending := ["m1"] }
        (.childExit 0) =
      ({ childActive := false, succeeded := some true, pending := [] },
       .setOutcome true :: surface "m1") ∧
    ((runJoin { childActive := true, succeeded := none, pending := [] }
        [.remoteMsg "m1", .childExit 1]).takeWhile
          (fun a => !a.isSetOutcome)).all (fun a => !a.isFetchMessage) = true :=
  ⟨(join_defers_remote_until_outcome
      { childActive := true, succeeded := none, pending := [] } "m1" 0).1 rfl,
   (join_defers_remote_until_outcome
      { childActive := false, succeeded := none, pending := [] } "m1" 0).2.1 rfl,
   by
    have h := (join_defers_remote_until_outcome
      { childActive := true, succeeded := none, pending := ["m1"] } "m1" 0).2.2.1
    simpa using h,
   (join_defers_remote_until_outcome
      { childActive := true, succeeded := none, pending := [] } "m1" 0).2.2.2 rfl
      [.remoteMsg "m1", .childExit 1]⟩

/-- Claim C4: starting from any in-range cursor, every sequence of up/down
recall keypresses keeps the history cursor clamped to `[0, historyLength]`;
an `up` at (or below) the start keeps selecting the oldest entry, and a
`down` at (or beyond) `historyLength` keeps the cursor there with an empty
redrawn line buffer. -/
theorem recall_cursor_clamped (hist : List PromptResult) (ks : List RKey)
    (st : RecallState) :
    (0 ≤ st.marker → st.marker ≤ (hist.length : Int) →
      0 ≤ (runRecall hist 0 st ks).marker ∧
        (runRecall hist 0 st ks).marker ≤ (hist.length : Int)) ∧
    (st.marker ≤ 0 →
      (recallStep hist 0 st .up).marker = 0 ∧
      (∀ e, hist.head? = some e → (recallStep hist 0 st .up).buffer = e.input)) ∧
    ((hist.length : Int) ≤ st.marker →
      (recallStep hist 0 st .down).marker = hist.length ∧
      (recallStep hist 0 st .down).buffer = "") := by
  refine ⟨fun h0 h1 => recall_invariant ks hist st h0 h1, ?_, ?_⟩
  · intro hle
    have hm : clampMarker (st.marker + keyDelta RKey.up) hist.length = 0 := by
      simp [clampMarker, keyDelta]
      omega
    constructor
    · simp [recallStep, hm]
    · intro e he
      cases hist with
      | nil => simp at he
      | cons a t =>
        simp at he
        subst he
        have hm' : clampMarker (st.marker + keyDelta RKey.up) (t.length + 1) = 0 := by
          simpa using hm
        simp [recallStep, hm', entryAt]
  · intro hge
    have hm : clampMarker (st.marker + keyDelta RKey.down) hist.length =
        (hist.length : Int) := by
      simp [clampMarker, keyDelta]
      omega
    refine ⟨by simp [recallStep, hm], ?_⟩
    have hnone : hist.get? ((hist.length : Int)).toNat = none := by
      simp [List.get?_eq_none]
    simp [recallStep, hm, entryAt, hnone]

/-- Witness for `recall_cursor_clamped` on a two-entry history. -/
theorem recall_cursor_clamped_witness :
    (0 ≤ (runRecall [{ id := none, input := "a" }, { id := none, input := "b" }] 0
        { marker := 2, buffer := "" } [.up, .up, .up]).marker ∧
      (runRecall [{ id := none, input := "a" }, { id := none, input := "b" }] 0
        { marker := 2, buffer := "" } [.up, .up, .up]).marker ≤ 2) ∧
    ((recallStep [{ id := none, input := "a" }, { id := none, input := "b" }] 0
        { marker := 0, buffer := "a" } .up).marker = 0 ∧
      (recallStep [{ id := none, input := "a" }, { id := none, input := "b" }] 0
        { marker := 0, buffer := "a" } .up).buffer = "a") ∧
    ((recallStep [{ id := none, input := "a" }, { id := none, input := "b" }] 0
        { marker := 2, buffer := "" } .down).marker = 2 ∧
      (recallStep [{ id := none, input := "a" }, { id := none, input := "b" }] 0
        { marker := 2, buffer := "" } .down).buffer = "") := by
  have h := recall_cursor_clamped
    [{ id := none, input := "a" }, { id := none, input := "b" }]
    [.up, .up, .up] { marker := 2, buffer := "" }
  have h0 := recall_cursor_clamped
    [{ id := none, input := "a" }, { id := none, input := "b" }]
    [] { marker := 0, buffer := "a" }
  refine ⟨by simpa using h.1 (by norm_num) (by norm_num), ?_, ?_⟩
  · have hb := h0.2.1 (by norm_num)
    exact ⟨hb.1, hb.2 { id := none, input := "a" } rfl⟩
  · have hc := h.2.2 (by norm_num)
    simpa using hc

/-- Claim C7: a comment input creates no history entry and spawns no
process; with non-empty history the comment notification targets the most
recent entry; with empty history the step emits a reportable warning and the
session continues (no exit action). -/
theorem comment_no_entry_no_spawn (s : HostState) (text : List String)
    (hne : text.isEmpty = false) (hc : isCommentInput (toSingle text) = true) :
    (processInput s text).1 = s ∧
    (∀ cmd, HAction.spawnChild cmd ∉ (processInput s text).2) ∧
    (∀ c, HAction.exitProc c ∉ (processInput s text).2) ∧
    (s.history = [] →
      (processInput s text).2 =
        [.warn "Input must be submitted before a comment can be added"]) ∧
    (∀ last, s.history.getLast? = some last →
      (processInput s text).2 =
        [.postComment last.id (commentStrip (toSingle text))]) := by
  rw [processInput_comment s text hne hc]
  unfold appendComment
  cases hgl : s.history.getLast? with
  | none =>
    refine ⟨rfl, by simp, by simp, fun _ => rfl, ?_⟩
    intro last hlast
    exact absurd hlast (by simp)
  | some last =>
    refine ⟨rfl, by simp, by simp, ?_, ?_⟩
    · intro hh
      rw [hh] at hgl
      exact absurd hgl (by simp)
    · intro l hl
      have hll : last = l := by simpa using hl
      subst hll
      rfl

/-- Witness for `comment_no_entry_no_spawn`, on a non-empty and on an empty
history. -/
theorem comment_no_entry_no_spawn_witness :
    (processInput ⟨[⟨some "42", "echo hi"⟩], none, none⟩ ["# note"]).1 =
      (⟨[⟨some "42", "echo hi"⟩], none, none⟩ : HostState) ∧
    (processInput ⟨[⟨some "42", "echo hi"⟩], none, none⟩ ["# note"]).2 =
      [.postComment (some "42") "note"] ∧
    (processInput ⟨[], none, none⟩ ["# note"]).2 =
      [.warn "Input must be submitted before a comment can be added"] := by
  have h1 := comment_no_entry_no_spawn
    ⟨[⟨some "42", "echo hi"⟩], none, none⟩ ["# note"] rfl (by decide)
  have h2 := comment_no_entry_no_spawn ⟨[], none, none⟩ ["# note"] rfl (by decide)
  exact ⟨h1.1, h1.2.2.2.2 ⟨some "42", "echo hi"⟩ rfl, h2.2.2.2.1 rfl⟩

/-- Claim C9 (implicit): a comment processed while the most recent entry's
id is still unassigned emits the comment webhook call in that same step with
the absent (`none`) id as its payload id — it never waits for the pending
message acknowledgement. -/
theorem comment_immediate_absent_id (s : HostState) (text : List String)
    (last : PromptResult) (hne : text.isEmpty = false)
    (hc : isCommentInput (toSingle text) = true)
    (hl : s.history.getLast? = some last) (hid : last.id = none) :
    processInput s text = (s, [.postComment none (commentStrip (toSingle text))]) := by
  rw [processInput_comment s text hne hc]
  simp [appendComment, hl, hid]

/-- Witness for `comment_immediate_absent_id`: a comment right after an
executable whose acknowledgement has not resolved posts with id `none`. -/
theorem comment_immediate_absent_id_witness :
    processInput ⟨[⟨none, "echo hi"⟩], none, none⟩ ["# works"] =
      (⟨[⟨none, "echo hi"⟩], none, none⟩, [.postComment none "works"]) := by
  have h := comment_immediate_absent_id ⟨[⟨none, "echo hi"⟩], none, none⟩
    ["# works"] ⟨none, "echo hi"⟩ rfl (by decide) rfl rfl
  simpa using h

/-- Claim C8: a successful message-webhook acknowledgement assigns the
returned id onto the history entry captured for that input, independently of
child-completion timing (the assignment commutes with child completion); a
failed acknowledgement is logged as a warning and leaves every entry's id
untouched; and an executable input creates its entry (with absent id) at the
index carried by the emitted POST action. -/
theorem ack_assigns_id_independently (s : HostState) (idx : Nat) (r : WebhookResp)
    (e : PromptResult) (text : List String) :
    (applyAck s idx (.ok r) =
      ({ s with history := assignId s.history idx r.id }, [])) ∧
    (s.history.get? idx = some e →
      (applyAck s idx (.ok r)).1.history.get? idx =
        some { e with id := some r.id }) ∧
    (∀ j, j ≠ idx →
      (applyAck s idx (.ok r)).1.history.get? j = s.history.get? j) ∧
    (∀ ok res, applyAck (childDone s ok) idx res =
      (childDone (applyAck s idx res).1 ok, (applyAck s idx res).2)) ∧
    (∀ err, applyAck s idx (.error err) = (s, [.warn err])) ∧
    (text.isEmpty = false → toSingle text ∉ QUIT →
      isCommentInput (toSingle text) = false →
      (processInput s text).1.history.get? s.history.length =
        some { id := none, input := toSingle text } ∧
      (processInput s text).2 =
        [.rlDisconnect, .spawnChild (toSingle text),
         .postMessage (String.intercalate eol text) s.history.length]) := by
  refine ⟨rfl, fun hg => assignId_get?_eq s.history idx r.id e hg,
    fun j hj => assignId_get?_ne s.history idx r.id j hj,
    fun ok res => by cases res <;> rfl,
    fun err => rfl, ?_⟩
  intro hne hq hcm
  constructor
  · simp [processInput, hne, hq, hcm, List.get?_concat_length]
  · simp [processInput, hne, hq, hcm]

/-- Witness for `ack_assigns_id_independently` at the spec scenario:
`echo hi` creates the entry, the acknowledgement `{id := "42"}` assigns it. -/
theorem ack_assigns_id_independently_witness :
    (processInput ⟨[], none, none⟩ ["echo hi"]).1.history.get? 0 =
      some ⟨none, "echo hi"⟩ ∧
    (processInput ⟨[], none, none⟩ ["echo hi"]).2 =
      [.rlDisconnect, .spawnChild "echo hi", .postMessage "echo hi" 0] ∧
    (applyAck ⟨[⟨none, "echo hi"⟩], some "echo hi", none⟩ 0
        (.ok ⟨"42", "c1"⟩)).1.history.get? 0 = some ⟨some "42", "echo hi"⟩ := by
  have h := ack_assigns_id_independently ⟨[], none, none⟩ 0
    ⟨"42", "c1"⟩ ⟨none, "echo hi"⟩ ["echo hi"]
  have h2 := ack_assigns_id_independently ⟨[⟨none, "echo hi"⟩], some "echo hi", none⟩ 0
    ⟨"42", "c1"⟩ ⟨none, "echo hi"⟩ ["echo hi"]
  have hrun := h.2.2.2.2.2 rfl (by decide) rfl
  exact ⟨by simpa using hrun.1, by simpa using hrun.2, h2.2.1 rfl⟩

/-- Claim C10: every `Prompt` instance's history list is its construction
snapshot followed by exactly the entries it appended itself (an invariant
preserved over all operation sequences); a submission through the instance
at `i` leaves every other instance untouched; a newly constructed instance
snapshots the shared process-wide list as it stands; and a non-excluded
submission appends one entry both to the instance and to the shared list. -/
theorem prompt_history_snapshot_isolation (w : PWorld) (ops : List POp)
    (f : String → Bool) (i j : Nat) (chunks : List String) (p : PromptInst) :
    ((∀ q ∈ w.prompts, q.hist = q.snap ++ q.own) →
      ∀ q ∈ (runP w ops).prompts, q.hist = q.snap ++ q.own) ∧
    ((pStep w (.construct f)).prompts.getLast? =
      some { snap := w.globalHist, hist := w.globalHist, own := [], excl := f }) ∧
    (j ≠ i → (pStep w (.submit i chunks)).prompts.get? j = w.prompts.get? j) ∧
    (w.prompts.get? i = some p →
      (pStep w (.submit i chunks)).globalHist =
        (addHistory p w.globalHist chunks).2 ∧
      (pStep w (.submit i chunks)).prompts.get? i =
        some (addHistory p w.globalHist chunks).1) ∧
    (∀ g cs, cs.isEmpty = false → p.excl (toSingle cs) = false →
      addHistory p g cs =
        ({ p with
            hist := p.hist ++ [{ id := none, input := toSingle cs }],
            own := p.own ++ [{ id := none, input := toSingle cs }] },
         g ++ [{ id := none, input := toSingle cs }])) := by
  refine ⟨fun hw => runP_hist_inv ops w hw, ?_, ?_, ?_, ?_⟩
  · simp [pStep]
  · intro hj
    simp only [pStep]
    cases hgi : w.prompts.get? i with
    | none => rfl
    | some q => exact List.get?_set_ne _ _ (fun hji => hj hji.symm)
  · intro hp
    simp only [pStep, hp]
    have hlt : i < w.prompts.length := by
      by_contra hge
      rw [List.get?_eq_none.mpr (Nat.le_of_not_lt hge)] at hp
      exact absurd hp (by simp)
    exact ⟨trivial, List.get?_set_eq_of_lt _ hlt⟩
  · intro g cs hcs hex
    simp [addHistory, hcs, hex]

/-- Witness for `prompt_history_snapshot_isolation` on a concrete two-prompt
world. -/
theorem prompt_history_snapshot_isolation_witness :
    (∀ q ∈ (runP { globalHist := [], prompts := [] }
        [.construct (fun _ => false), .submit 0 ["a"]]).prompts,
      q.hist = q.snap ++ q.own) ∧
    (pStep { globalHist := [{ id := none, input := "a" }], prompts := [] }
        (.construct (fun _ => false))).prompts.getLast? =
      some { snap := [{ id := none, input := "a" }],
             hist := [{ id := none, input := "a" }],
             own := [], excl := fun _ => false } := by
  have h1 := prompt_history_snapshot_isolation
    { globalHist := [], prompts := [] }
    [.construct (fun _ => false), .submit 0 ["a"]]
    (fun _ => false) 0 0 ["a"]
    { snap := [], hist := [], own := [], excl := fun _ => false }
  have h2 := prompt_history_snapshot_isolation
    { globalHist := [{ id := none, input := "a" }], prompts := [] }
    [] (fun _ => false) 0 0 ["a"]
    { snap := [], hist := [], own := [], excl := fun _ => false }
  exact ⟨h1.1 (by simp), h2.2.1⟩

end Telety
